import Mathlib

/-
Verification of the training / evaluation loop shared by the two
Dog-Breed-Classification notebooks (scratch CNN and VGG16 transfer learning).

The loop is embedded shallowly:
  * a mini-batch is a list of samples together with their integer labels;
  * loss values are rationals (Python floats in the notebooks);
  * the model parameters are an abstract type `P`; one combined
    `zero_grad / forward / backward / optimizer.step` over a batch is a
    function `P → Batch α → P`, and `criterion(model(data), target).item()`
    is a function `P → Batch α → ℚ`;
  * `np.Inf`, the initial value of `valid_loss_min`, is `⊤ : WithTop ℚ`;
  * `torch.save(model.state_dict(), save_path)` overwrites an entry of a
    filesystem `String → Option P`, and every save call is also appended
    to a write log so that "a checkpoint was written this epoch" is
    observable.
-/

namespace DogBreed

/-- One mini-batch yielded by a data loader: `data` is the list of samples
(`data.size(0)` is its length) and `target` the list of class labels. -/
structure Batch (α : Type) where
  data : List α
  target : List Nat
  deriving DecidableEq
/-- The number of samples in the batch, `data.size(0)`. -/
def Batch.size {α : Type} (b : Batch α) : Nat := b.data.length

/-- The arguments of `train(n_epochs, loaders, model, optimizer, criterion,
use_cuda, save_path)` other than `n_epochs` and the model itself.
`stepFn` is one training step (`zero_grad`; forward; `backward`;
`optimizer.step`), `lossFn` is `criterion(model(data), target).item()`,
`trainSize` and `validSize` are `len(loaders[train].dataset)` and
`len(loaders[valid].dataset)`. -/
structure TrainConfig (α P : Type) where
  stepFn : P → Batch α → P
  lossFn : P → Batch α → ℚ
  trainBatches : List (Batch α)
  validBatches : List (Batch α)
  trainSize : Nat
  validSize : Nat
  savePath : String

variable {α P : Type}

/-- The training loop of an epoch: for each batch, the loss is computed at
the current parameters, the optimizer step replaces the parameters, and
`train_loss += loss.item() * data.size(0)` accumulates.  The fold state is
(model parameters, accumulated `train_loss`). -/
def trainPhase (stepFn : P → Batch α → P) (lossFn : P → Batch α → ℚ)
    (bs : List (Batch α)) (s : P × ℚ) : P × ℚ :=
  bs.foldl (fun s b =>
    let loss := lossFn s.1 b
    (stepFn s.1 b, s.2 + loss * (b.size : ℚ))) s

/-- The validation loop of an epoch: for each batch only the forward pass
and the loss are computed and `valid_loss += loss.item() * data.size(0)`
accumulates; the loop body never assigns the model parameters, so the
first component is passed through unchanged. -/
def validPhase (lossFn : P → Batch α → ℚ)
    (bs : List (Batch α)) (s : P × ℚ) : P × ℚ :=
  bs.foldl (fun s b =>
    let loss := lossFn s.1 b
    (s.1, s.2 + loss * (b.size : ℚ))) s

/-- The model parameters after the training loop of an epoch that starts
at parameters `p` (accumulators start at `0.0`). -/
def epochTrainedParams (cfg : TrainConfig α P) (p : P) : P :=
  (trainPhase cfg.stepFn cfg.lossFn cfg.trainBatches (p, 0)).1

/-- The accumulated `train_loss` of an epoch that starts at parameters `p`,
before division by the dataset size. -/
def epochTrainLossSum (cfg : TrainConfig α P) (p : P) : ℚ :=
  (trainPhase cfg.stepFn cfg.lossFn cfg.trainBatches (p, 0)).2

/-- The model parameters at the end of an epoch (after both loops). -/
def epochParams (cfg : TrainConfig α P) (p : P) : P :=
  (validPhase cfg.lossFn cfg.validBatches (epochTrainedParams cfg p, 0)).1

/-- The accumulated `valid_loss` of an epoch that starts at parameters `p`,
before division by the dataset size. -/
def epochValidLossSum (cfg : TrainConfig α P) (p : P) : ℚ :=
  (validPhase cfg.lossFn cfg.validBatches (epochTrainedParams cfg p, 0)).2

/-- The printed mean per-sample training loss of an epoch starting at
parameters `p`: `train_loss = train_loss / len(loaders[train].dataset)`. -/
def epochTrainLoss (cfg : TrainConfig α P) (p : P) : ℚ :=
  epochTrainLossSum cfg p / (cfg.trainSize : ℚ)

/-- The printed mean per-sample validation loss of an epoch starting at
parameters `p`: `valid_loss = valid_loss / len(loaders[valid].dataset)`. -/
def epochValidLoss (cfg : TrainConfig α P) (p : P) : ℚ :=
  epochValidLossSum cfg p / (cfg.validSize : ℚ)

/-- The mutable state threaded through the epochs of `train`:
the model parameters, the tracker `valid_loss_min` (initially `np.Inf`),
the filesystem seen through `torch.save`, and the log of save calls. -/
structure TrainState (P : Type) where
  params : P
  validLossMin : WithTop ℚ
  files : String → Option P
  writeLog : List (String × P)

/-- One iteration of `for epoch in range(1, n_epochs+1)`: run the training
and validation loops, then
`if valid_loss <= valid_loss_min: torch.save(model.state_dict(), save_path);
valid_loss_min = valid_loss`. -/
def trainEpoch (cfg : TrainConfig α P) (s : TrainState P) : TrainState P :=
  let p1 := epochParams cfg s.params
  let valid_loss := epochValidLoss cfg s.params
  if (valid_loss : WithTop ℚ) ≤ s.validLossMin then
    { params := p1
      validLossMin := (valid_loss : WithTop ℚ)
      files := Function.update s.files cfg.savePath (some p1)
      writeLog := s.writeLog ++ [(cfg.savePath, p1)] }
  else
    { s with params := p1 }

/-- The state on entry to `train`: `valid_loss_min = np.Inf`, no file
written yet. -/
def startState (p : P) : TrainState P :=
  { params := p
    validLossMin := ⊤
    files := fun _ => none
    writeLog := [] }

/-- The state after the first `k` iterations of the epoch loop of `train`,
starting from model parameters `p`. -/
def afterEpochs (cfg : TrainConfig α P) (p : P) : Nat → TrainState P
  | 0 => startState p
  | k + 1 => trainEpoch cfg (afterEpochs cfg p k)

/-- The function `train` at the level of object identity: the model argument is a
reference `model` into a heap of parameter objects; the epochs mutate the
referenced object in place and the function ends with `return model`.
The result is (heap after the call, returned reference). -/
def trainModel (cfg : TrainConfig α P) (nEpochs : Nat)
    (model : Nat) (heap : Nat → P) : (Nat → P) × Nat :=
  let final := afterEpochs cfg (heap model) nEpochs
  (Function.update heap model final.params, model)

/-- The arguments of `test(loaders, model, criterion, use_cuda)`:
`forwardFn p x` is the row of output logits `model(data)` computes for one
sample `x`, `lossFn` is `criterion(output, target).item()`, and `testSize`
is `len(loaders[test].dataset)`. -/
structure TestConfig (α P : Type) where
  forwardFn : P → α → List ℚ
  lossFn : P → Batch α → ℚ
  testBatches : List (Batch α)
  testSize : Nat

/-- The prediction `output.data.max(1, keepdim=True)[1]` for one row of logits: the index
of a maximal entry (the earliest one when several entries tie). -/
def argmaxIdx (l : List ℚ) : Nat :=
  (List.range l.length).foldl
    (fun best i => if l.getD best 0 < l.getD i 0 then i else best) 0

/-- The count `np.sum(np.squeeze(pred.eq(target.data.view_as(pred))).cpu().numpy())`
for one batch: how many samples have `argmax(output) == label`. -/
def batchCorrect (fwd : α → List ℚ) (b : Batch α) : Nat :=
  ((b.data.zip b.target).map
    (fun s => if argmaxIdx (fwd s.1) = s.2 then 1 else 0)).sum

/-- The accumulators of `test`: `test_loss`, `correct` and `total`. -/
structure TestAcc where
  testLoss : ℚ
  correct : Nat
  total : Nat
  deriving DecidableEq

/-- The body of the batch loop of `test`: forward pass, loss,
`test_loss += loss.item() * data.size(0)`, count the correct top-1
predictions, `total += data.size(0)`. -/
def testStep (tc : TestConfig α P) (p : P) (acc : TestAcc) (b : Batch α) :
    TestAcc :=
  let loss := tc.lossFn p b
  { testLoss := acc.testLoss + loss * (b.size : ℚ)
    correct := acc.correct + batchCorrect (tc.forwardFn p) b
    total := acc.total + b.size }

/-- The batch loop of `test`, from zeroed accumulators. -/
def testFold (tc : TestConfig α P) (p : P) : TestAcc :=
  tc.testBatches.foldl (testStep tc p) ⟨0, 0, 0⟩

/-- What `test` reports: `test_loss / len(loaders[test].dataset)` and the
printed percentage `100. * correct / total`, along with the raw counts. -/
structure TestReport where
  meanLoss : ℚ
  accuracyPct : ℚ
  correct : Nat
  total : Nat
  deriving DecidableEq

/-- The whole of `test(loaders, model, criterion, use_cuda)` run at
parameters `p`. -/
def testRun (tc : TestConfig α P) (p : P) : TestReport :=
  let a := testFold tc p
  { meanLoss := a.testLoss / (tc.testSize : ℚ)
    accuracyPct := 100 * (a.correct : ℚ) / (a.total : ℚ)
    correct := a.correct
    total := a.total }

/-- The function `test` at the level of object identity: the model is a reference into a
heap of parameter objects; the body only reads the referenced object, so
the heap after the call is the heap that was passed in. -/
def testModel (tc : TestConfig α P) (model : Nat) (heap : Nat → P) :
    (Nat → P) × TestReport :=
  (heap, testRun tc (heap model))

/-
The optimizer of the transfer-learning variant.  Per the data model of the spec, the
model parameters are a flat mapping from parameter name to tensor; a
tensor is a list of rationals.  The printed VGG16 architecture has
convolution layers `features.{0,2,5,7,10,12,14,17,19,21,24,26,28}` and
linear layers `classifier.{0,3,6}`, each contributing a weight and a bias.
-/

/-- The parameter names of the `features` sub-module of VGG16. -/
def vgg16FeatureParamNames : List String :=
  ["features.0.weight", "features.0.bias",
   "features.2.weight", "features.2.bias",
   "features.5.weight", "features.5.bias",
   "features.7.weight", "features.7.bias",
   "features.10.weight", "features.10.bias",
   "features.12.weight", "features.12.bias",
   "features.14.weight", "features.14.bias",
   "features.17.weight", "features.17.bias",
   "features.19.weight", "features.19.bias",
   "features.21.weight", "features.21.bias",
   "features.24.weight", "features.24.bias",
   "features.26.weight", "features.26.bias",
   "features.28.weight", "features.28.bias"]

/-- The parameter names of the `classifier` sub-module of VGG16, i.e.
`model_transfer.classifier.parameters()`. -/
def vgg16ClassifierParamNames : List String :=
  ["classifier.0.weight", "classifier.0.bias",
   "classifier.3.weight", "classifier.3.bias",
   "classifier.6.weight", "classifier.6.bias"]

/-- One `optimizer.step()` of `torch.optim.SGD(params, lr)`: each parameter
registered with the optimizer moves against its gradient; a parameter the
optimizer was not constructed over is untouched. -/
def sgdStep (registered : List String) (lr : ℚ)
    (grad : String → List ℚ) (p : String → List ℚ) : String → List ℚ :=
  fun n =>
    if n ∈ registered then (p n).zipWith (fun w g => w - lr * g) (grad n)
    else p n

/-- The step of `optimizer_transfer = optim.SGD(
params=model_transfer.classifier.parameters(), lr=learning_rate)`: an SGD
step over exactly the classifier parameters. -/
def optimizerTransferStep (lr : ℚ) (grad : String → List ℚ)
    (p : String → List ℚ) : String → List ℚ :=
  sgdStep vgg16ClassifierParamNames lr grad p

/-- The per-batch losses observed during the training loop of one epoch:
the loss of each batch is computed at the parameters current when that batch is
processed. -/
def epochBatchLosses (stepFn : P → Batch α → P) (lossFn : P → Batch α → ℚ) :
    P → List (Batch α) → List ℚ
  | _, [] => []
  | p, b :: bs => lossFn p b :: epochBatchLosses stepFn lossFn (stepFn p b) bs

/-- The sum over the training batches of an epoch of the loss of each batch times
the sample count of that batch. -/
def weightedBatchLossSum (stepFn : P → Batch α → P)
    (lossFn : P → Batch α → ℚ) (p : P) (bs : List (Batch α)) : ℚ :=
  (((epochBatchLosses stepFn lossFn p bs).zip (bs.map Batch.size)).map
    (fun q => q.1 * (q.2 : ℚ))).sum

/-- The mean validation loss measured in epoch number `k + 1` of a run of
`train` that starts at model parameters `p`. -/
def epochLoss (cfg : TrainConfig α P) (p : P) (k : Nat) : ℚ :=
  epochValidLoss cfg ((afterEpochs cfg p k).params)

/-- The minimum validation loss observed during the first `k` epochs of a
run of `train` (it is `np.Inf` when no epoch has run yet). -/
def minLossUpTo (cfg : TrainConfig α P) (p : P) : Nat → WithTop ℚ
  | 0 => ⊤
  | k + 1 => min (minLossUpTo cfg p k) (epochLoss cfg p k : WithTop ℚ)

/-- A tiny concrete run of the training loop: no training batches, one
validation batch holding one sample, constant loss `1`, so every epoch
measures the same mean validation loss `1`. -/
def tieCfg : TrainConfig Nat ℚ :=
  { stepFn := fun p _ => p
    lossFn := fun _ _ => 1
    trainBatches := []
    validBatches := [{ data := [0], target := [0] }]
    trainSize := 1
    validSize := 1
    savePath := "model_scratch.pt" }

lemma validPhase_fst (lossFn : P → Batch α → ℚ) (bs : List (Batch α))
    (p : P) (acc : ℚ) : (validPhase lossFn bs (p, acc)).1 = p := by
  induction bs generalizing acc with
  | nil => rfl
  | cons b bs ih => simpa [validPhase] using ih _

lemma validPhase_snd (lossFn : P → Batch α → ℚ) (bs : List (Batch α))
    (p : P) (acc : ℚ) :
    (validPhase lossFn bs (p, acc)).2 =
      acc + (bs.map (fun b => lossFn p b * (b.size : ℚ))).sum := by
  induction bs generalizing acc with
  | nil => simp [validPhase]
  | cons b bs ih =>
      have h := ih (acc + lossFn p b * (b.size : ℚ))
      simp only [validPhase, List.foldl_cons, List.map_cons, List.sum_cons] at *
      rw [h]; ring

lemma trainPhase_snd (stepFn : P → Batch α → P) (lossFn : P → Batch α → ℚ)
    (bs : List (Batch α)) (p : P) (acc : ℚ) :
    (trainPhase stepFn lossFn bs (p, acc)).2 =
      acc + weightedBatchLossSum stepFn lossFn p bs := by
  induction bs generalizing p acc with
  | nil => simp [trainPhase, weightedBatchLossSum, epochBatchLosses]
  | cons b bs ih =>
      have h := ih (stepFn p b) (acc + lossFn p b * (b.size : ℚ))
      simp only [trainPhase, List.foldl_cons] at *
      rw [h]
      simp only [weightedBatchLossSum, epochBatchLosses, List.map_cons,
        List.zip_cons_cons, List.sum_cons]
      ring

lemma validLossMin_eq_minLossUpTo (cfg : TrainConfig α P) (p : P) (k : Nat) :
    (afterEpochs cfg p k).validLossMin = minLossUpTo cfg p k := by
  induction k with
  | zero => rfl
  | succ k ih =>
      simp only [afterEpochs, trainEpoch, minLossUpTo]
      by_cases h :
          (epochValidLoss cfg ((afterEpochs cfg p k).params) : WithTop ℚ)
            ≤ (afterEpochs cfg p k).validLossMin
      · rw [if_pos h]
        rw [ih] at h
        exact (min_eq_right h).symm
      · rw [if_neg h, ih]
        rw [ih] at h
        exact (min_eq_left (le_of_not_le h)).symm

lemma files_off_savePath (cfg : TrainConfig α P) (p : P) (k : Nat)
    (q : String) (hq : q ≠ cfg.savePath) :
    (afterEpochs cfg p k).files q = none := by
  induction k with
  | zero => rfl
  | succ k ih =>
      simp only [afterEpochs, trainEpoch]
      split
      · simpa [Function.update, hq] using ih
      · exact ih

lemma afterEpochs_params_succ (cfg : TrainConfig α P) (p : P) (k : Nat) :
    (afterEpochs cfg p (k + 1)).params =
      epochParams cfg ((afterEpochs cfg p k).params) := by
  simp only [afterEpochs, trainEpoch]
  split <;> rfl

lemma checkpoint_is_best (cfg : TrainConfig α P) (p : P) (k : Nat)
    (hk : 1 ≤ k) :
    ∃ j, j < k ∧
      (afterEpochs cfg p k).files cfg.savePath
        = some ((afterEpochs cfg p (j + 1)).params)
      ∧ (epochLoss cfg p j : WithTop ℚ) = minLossUpTo cfg p k := by
  induction k with
  | zero => omega
  | succ k ih =>
      by_cases h :
          (epochValidLoss cfg ((afterEpochs cfg p k).params) : WithTop ℚ)
            ≤ (afterEpochs cfg p k).validLossMin
      · refine ⟨k, Nat.lt_succ_self k, ?_, ?_⟩
        · show (trainEpoch cfg (afterEpochs cfg p k)).files cfg.savePath = _
          rw [afterEpochs_params_succ]
          simp only [trainEpoch, if_pos h, Function.update_same]
        · rw [validLossMin_eq_minLossUpTo] at h
          simp only [minLossUpTo, epochLoss]
          exact (min_eq_right h).symm
      · have hk1 : 1 ≤ k := by
          rcases Nat.eq_zero_or_pos k with h0 | h1
          · exfalso
            apply h
            rw [h0]
            exact le_top
          · exact h1
        obtain ⟨j, hj, hfile, hmin⟩ := ih hk1
        refine ⟨j, Nat.lt_succ_of_lt hj, ?_, ?_⟩
        · show (trainEpoch cfg (afterEpochs cfg p k)).files cfg.savePath = _
          simp only [trainEpoch, if_neg h]
          exact hfile
        · rw [validLossMin_eq_minLossUpTo] at h
          simp only [minLossUpTo, epochLoss]
          rw [min_eq_left (le_of_not_le h)]
          exact hmin

lemma writeLog_after_one (cfg : TrainConfig α P) (p : P) :
    (afterEpochs cfg p 1).writeLog =
      [(cfg.savePath, (afterEpochs cfg p 1).params)] := by
  show (trainEpoch cfg (startState p)).writeLog =
    [(cfg.savePath, (trainEpoch cfg (startState p)).params)]
  simp only [trainEpoch, startState, if_pos le_top]
  rfl

lemma writeLog_head_of_pos (cfg : TrainConfig α P) (p : P) (k : Nat)
    (hk : 1 ≤ k) :
    (afterEpochs cfg p k).writeLog.head? =
      some (cfg.savePath, (afterEpochs cfg p 1).params) := by
  induction k with
  | zero => omega
  | succ k ih =>
      rcases Nat.eq_zero_or_pos k with h0 | h1
      · subst h0
        rw [writeLog_after_one]
        rfl
      · have ihk := ih h1
        show (trainEpoch cfg (afterEpochs cfg p k)).writeLog.head? = _
        simp only [trainEpoch]
        split
        · cases hwl : (afterEpochs cfg p k).writeLog with
          | nil => rw [hwl] at ihk; simp at ihk
          | cons a l =>
              rw [hwl] at ihk
              simpa using ihk
        · exact ihk

/-- Claim C1: in every epoch of the train loop, the checkpoint at
`save_path` is written (one `torch.save` of the model parameter state is
appended to the write log) if and only if the mean validation loss of the
epoch is less than or equal to the running minimum, and exactly when it is
written the running minimum becomes that validation loss (otherwise both
the log and the minimum are unchanged). -/
theorem checkpoint_save_iff_le_min (cfg : TrainConfig α P)
    (s : TrainState P) :
    ((trainEpoch cfg s).writeLog.length = s.writeLog.length + 1
        ↔ (epochValidLoss cfg s.params : WithTop ℚ) ≤ s.validLossMin)
  ∧ (trainEpoch cfg s).writeLog
      = (if (epochValidLoss cfg s.params : WithTop ℚ) ≤ s.validLossMin
          then s.writeLog ++ [(cfg.savePath, epochParams cfg s.params)]
          else s.writeLog)
  ∧ (trainEpoch cfg s).validLossMin
      = (if (epochValidLoss cfg s.params : WithTop ℚ) ≤ s.validLossMin
          then (epochValidLoss cfg s.params : WithTop ℚ)
          else s.validLossMin) := by
  by_cases h : (epochValidLoss cfg s.params : WithTop ℚ) ≤ s.validLossMin
  · simp [trainEpoch, h]
  · simp [trainEpoch, h]

/-- Claim C2, counterexample to "an epoch whose validation loss equals the
running minimum (a tie) does not overwrite the checkpoint": in the
concrete run `tieCfg`, epoch 2 measures validation loss `1`, equal to the
running minimum left by epoch 1, and nevertheless a second `torch.save`
happens in epoch 2. -/
theorem tie_overwrites_checkpoint_cx :
    epochLoss tieCfg 0 1 = 1
  ∧ (afterEpochs tieCfg 0 1).validLossMin = ((1 : ℚ) : WithTop ℚ)
  ∧ (afterEpochs tieCfg 0 1).writeLog.length = 1
  ∧ (afterEpochs tieCfg 0 2).writeLog.length = 2 := by
  have h1 : epochValidLoss tieCfg 0 = 1 := by
    norm_num [epochValidLoss, epochValidLossSum, epochTrainedParams,
      validPhase, trainPhase, tieCfg, Batch.size]
  have hp : ∀ q : ℚ, epochParams tieCfg q = q := by
    intro q
    norm_num [epochParams, epochTrainedParams, validPhase, trainPhase, tieCfg]
  have hparams : (afterEpochs tieCfg 0 1).params = 0 := by
    show (trainEpoch tieCfg (startState 0)).params = 0
    rw [trainEpoch]
    simp only [startState, h1, le_top, if_pos, hp]
  refine ⟨?_, ?_, ?_, ?_⟩
  · show epochValidLoss tieCfg ((afterEpochs tieCfg 0 1).params) = 1
    rw [hparams]
    exact h1
  · show (trainEpoch tieCfg (startState 0)).validLossMin = _
    rw [trainEpoch]
    simp only [startState, h1, le_top, if_pos]
  · show (trainEpoch tieCfg (startState 0)).writeLog.length = 1
    rw [trainEpoch]
    simp only [startState, h1, le_top, if_pos]
    rfl
  · show (trainEpoch tieCfg (trainEpoch tieCfg (startState 0))).writeLog.length = 2
    rw [trainEpoch, trainEpoch]
    simp only [startState, h1, le_top, if_pos, hp, le_refl]
    rfl

/-- Claim C2 (amended): the checkpoint file is overwritten exactly when
the validation loss of the epoch is less than or equal to the running
minimum; in particular an epoch whose validation loss equals the running
minimum (a tie) does overwrite the checkpoint. -/
theorem checkpoint_overwrite_iff_and_tie (cfg : TrainConfig α P)
    (s : TrainState P) :
    ((trainEpoch cfg s).writeLog.length = s.writeLog.length + 1
        ↔ (epochValidLoss cfg s.params : WithTop ℚ) ≤ s.validLossMin)
  ∧ ((epochValidLoss cfg s.params : WithTop ℚ) = s.validLossMin →
      (trainEpoch cfg s).files cfg.savePath
          = some (epochParams cfg s.params)
        ∧ (trainEpoch cfg s).writeLog.length = s.writeLog.length + 1) := by
  constructor
  · by_cases h : (epochValidLoss cfg s.params : WithTop ℚ) ≤ s.validLossMin
    · simp [trainEpoch, h]
    · simp [trainEpoch, h]
  · intro hEq
    have h : (epochValidLoss cfg s.params : WithTop ℚ) ≤ s.validLossMin :=
      le_of_eq hEq
    simp [trainEpoch, h]

/-- Claim C4: for every epoch, the reported per-epoch training loss is the
sum over the training batches of the loss of the batch times its sample
count, divided by the size of the training dataset, and the reported
validation loss is the corresponding weighted sum over the validation
batches divided by the size of the validation dataset. -/
theorem epoch_losses_weighted_mean (cfg : TrainConfig α P) (p : P) :
    epochTrainLoss cfg p
      = weightedBatchLossSum cfg.stepFn cfg.lossFn p cfg.trainBatches
          / (cfg.trainSize : ℚ)
  ∧ epochValidLoss cfg p
      = (cfg.validBatches.map
          (fun b => cfg.lossFn (epochTrainedParams cfg p) b * (b.size : ℚ))).sum
          / (cfg.validSize : ℚ) := by
  constructor
  · unfold epochTrainLoss epochTrainLossSum
    rw [trainPhase_snd, zero_add]
  · unfold epochValidLoss epochValidLossSum
    rw [validPhase_snd, zero_add]

/-- Claim C6: for every validation batch in every epoch, only the forward
pass and the loss are computed; the validation loop never changes the
model parameters, so the parameters at the end of an epoch are exactly the
parameters the training loop produced. -/
theorem validation_preserves_params (lossFn : P → Batch α → ℚ)
    (bs : List (Batch α)) (p : P) (acc : ℚ) (cfg : TrainConfig α P)
    (q : P) :
    (validPhase lossFn bs (p, acc)).1 = p
  ∧ epochParams cfg q = epochTrainedParams cfg q := by
  refine ⟨validPhase_fst lossFn bs p acc, ?_⟩
  unfold epochParams
  exact validPhase_fst cfg.lossFn cfg.validBatches (epochTrainedParams cfg q) 0

lemma testStep_foldl (tc : TestConfig α P) (p : P) (bs : List (Batch α))
    (a : TestAcc) :
    bs.foldl (testStep tc p) a =
      { testLoss := a.testLoss
          + (bs.map (fun b => tc.lossFn p b * (b.size : ℚ))).sum
        correct := a.correct
          + (bs.map (fun b => batchCorrect (tc.forwardFn p) b)).sum
        total := a.total + (bs.map Batch.size).sum } := by
  induction bs generalizing a with
  | nil => simp
  | cons b bs ih =>
      rw [List.foldl_cons, ih]
      simp only [testStep, List.map_cons, List.sum_cons, TestAcc.mk.injEq]
      refine ⟨by ring, by omega, by omega⟩

/-- Claim C3: in a run of `train` only the file at `save_path` is ever
written (every save overwrites the same path), and after each completed
epoch the checkpoint holds the end-of-epoch parameters of an epoch whose
validation loss equals the minimum validation loss observed so far in the
run (which is also what the tracker `valid_loss_min` holds). -/
theorem checkpoint_unique_and_best (cfg : TrainConfig α P) (p : P)
    (k : Nat) (hk : 1 ≤ k) :
    (∀ q, q ≠ cfg.savePath → (afterEpochs cfg p k).files q = none)
  ∧ (afterEpochs cfg p k).validLossMin = minLossUpTo cfg p k
  ∧ ∃ j, j < k ∧
      (afterEpochs cfg p k).files cfg.savePath
          = some ((afterEpochs cfg p (j + 1)).params)
        ∧ (epochLoss cfg p j : WithTop ℚ) = minLossUpTo cfg p k :=
  ⟨fun q hq => files_off_savePath cfg p k q hq,
   validLossMin_eq_minLossUpTo cfg p k,
   checkpoint_is_best cfg p k hk⟩

/-- Claim C5: over all batches of the test loader, `test` reports the
count of samples whose predicted class (argmax of the output logits)
equals the true label, the total number of samples processed, percentage
accuracy `100 * correct / total`, and the mean loss as the accumulated
batch-size-weighted loss divided by the size of the test dataset; the heap
of model objects is untouched (no parameter update). -/
theorem test_reports_accuracy_and_mean_loss (tc : TestConfig α P) (p : P) :
    (testRun tc p).correct
      = (tc.testBatches.map (fun b => batchCorrect (tc.forwardFn p) b)).sum
  ∧ (testRun tc p).total = (tc.testBatches.map Batch.size).sum
  ∧ (testRun tc p).meanLoss
      = (tc.testBatches.map (fun b => tc.lossFn p b * (b.size : ℚ))).sum
          / (tc.testSize : ℚ)
  ∧ (testRun tc p).accuracyPct
      = 100 * (((tc.testBatches.map
            (fun b => batchCorrect (tc.forwardFn p) b)).sum : ℚ)
          / (((tc.testBatches.map Batch.size).sum : ℚ)))
  ∧ (∀ r heap, (testModel tc r heap).1 = heap) := by
  have hf := testStep_foldl tc p tc.testBatches ⟨0, 0, 0⟩
  refine ⟨?_, ?_, ?_, ?_, fun r heap => rfl⟩
  · simp [testRun, testFold, hf]
  · simp [testRun, testFold, hf]
  · simp [testRun, testFold, hf]
  · simp [testRun, testFold, hf, mul_div_assoc]

/-- Claim C7: the optimizer of the transfer-learning variant is
constructed over only the parameters of the classifier sub-module, so its
step leaves every feature-extractor parameter unchanged, and any parameter
it changes at all is a classifier parameter. -/
theorem transfer_step_fixes_features (lr : ℚ) (grad p : String → List ℚ)
    (n : String) (hn : n ∈ vgg16FeatureParamNames) :
    optimizerTransferStep lr grad p n = p n
  ∧ (∀ m, m ∉ vgg16ClassifierParamNames →
      optimizerTransferStep lr grad p m = p m) := by
  constructor
  · have hnc : n ∉ vgg16ClassifierParamNames := by
      fin_cases hn <;> decide
    simp [optimizerTransferStep, sgdStep, hnc]
  · intro m hm
    simp [optimizerTransferStep, sgdStep, hm]

/-- Claim C7, witness: the first convolution weight of the feature
extractor is untouched by a concrete transfer-optimizer step. -/
theorem transfer_step_fixes_features_witness :
    "features.0.weight" ∈ vgg16FeatureParamNames
  ∧ optimizerTransferStep 1 (fun _ => [1]) (fun _ => [2]) "features.0.weight"
      = (fun _ => [(2 : ℚ)]) "features.0.weight" :=
  ⟨by decide,
   (transfer_step_fixes_features 1 (fun _ => [1]) (fun _ => [2])
      "features.0.weight" (by decide)).1⟩

/-- Claim C8: the value `train` returns is the very reference it was
passed (the model mutated in place), and no other object of the heap is
touched. -/
theorem train_returns_argument_model (cfg : TrainConfig α P) (n : Nat)
    (r : Nat) (heap : Nat → P) :
    (trainModel cfg n r heap).2 = r
  ∧ ∀ q, q ≠ r → (trainModel cfg n r heap).1 q = heap q := by
  refine ⟨rfl, fun q hq => ?_⟩
  simp [trainModel, Function.update_noteq hq]

/-- Claim C9: in every run of `train` with at least one epoch, the first
epoch ends with a checkpoint write, because `valid_loss_min` starts at
`np.Inf` and any validation loss is `≤ ⊤`; that first write stays at the
head of the write log for the rest of the run. -/
theorem first_epoch_always_saves (cfg : TrainConfig α P) (p : P) (n : Nat)
    (hn : 1 ≤ n) :
    (startState p : TrainState P).validLossMin = ⊤
  ∧ (epochValidLoss cfg p : WithTop ℚ) ≤ (startState p : TrainState P).validLossMin
  ∧ (afterEpochs cfg p 1).writeLog
      = [(cfg.savePath, (afterEpochs cfg p 1).params)]
  ∧ (afterEpochs cfg p n).writeLog.head?
      = some (cfg.savePath, (afterEpochs cfg p 1).params) :=
  ⟨rfl, le_top, writeLog_after_one cfg p, writeLog_head_of_pos cfg p n hn⟩

/-- Claim C10: a call of `train` with `n_epochs = 0` runs no epoch at all:
the state is the entry state, nothing is written, and the returned
reference is the argument model with the heap unchanged. -/
theorem zero_epochs_no_effect (cfg : TrainConfig α P) (p : P) (r : Nat)
    (heap : Nat → P) :
    afterEpochs cfg p 0 = startState p
  ∧ (afterEpochs cfg p 0).params = p
  ∧ (afterEpochs cfg p 0).writeLog = []
  ∧ (∀ q, (afterEpochs cfg p 0).files q = none)
  ∧ trainModel cfg 0 r heap = (heap, r) := by
  refine ⟨rfl, rfl, rfl, fun q => rfl, ?_⟩
  simp only [trainModel, afterEpochs, startState]
  rw [Function.update_eq_self]

/-- Claim C1, witness: the checkpoint characterisation evaluated on the
concrete run `tieCfg` at its entry state. -/
theorem checkpoint_save_iff_le_min_witness :
    ((trainEpoch tieCfg (startState 0)).writeLog.length
        = (startState (0 : ℚ)).writeLog.length + 1
      ↔ (epochValidLoss tieCfg (startState (0 : ℚ)).params : WithTop ℚ)
          ≤ (startState (0 : ℚ)).validLossMin)
  ∧ (trainEpoch tieCfg (startState 0)).writeLog
      = (if (epochValidLoss tieCfg (startState (0 : ℚ)).params : WithTop ℚ)
            ≤ (startState (0 : ℚ)).validLossMin
          then (startState (0 : ℚ)).writeLog
            ++ [(tieCfg.savePath, epochParams tieCfg (startState (0 : ℚ)).params)]
          else (startState (0 : ℚ)).writeLog)
  ∧ (trainEpoch tieCfg (startState 0)).validLossMin
      = (if (epochValidLoss tieCfg (startState (0 : ℚ)).params : WithTop ℚ)
            ≤ (startState (0 : ℚ)).validLossMin
          then (epochValidLoss tieCfg (startState (0 : ℚ)).params : WithTop ℚ)
          else (startState (0 : ℚ)).validLossMin) :=
  checkpoint_save_iff_le_min tieCfg (startState 0)

/-- Claim C2, witness for the amended statement, evaluated on the concrete
run `tieCfg` at its entry state. -/
theorem checkpoint_overwrite_iff_and_tie_witness :
    ((trainEpoch tieCfg (startState 0)).writeLog.length
        = (startState (0 : ℚ)).writeLog.length + 1
      ↔ (epochValidLoss tieCfg (startState (0 : ℚ)).params : WithTop ℚ)
          ≤ (startState (0 : ℚ)).validLossMin)
  ∧ ((epochValidLoss tieCfg (startState (0 : ℚ)).params : WithTop ℚ)
        = (startState (0 : ℚ)).validLossMin →
      (trainEpoch tieCfg (startState 0)).files tieCfg.savePath
          = some (epochParams tieCfg (startState (0 : ℚ)).params)
        ∧ (trainEpoch tieCfg (startState 0)).writeLog.length
            = (startState (0 : ℚ)).writeLog.length + 1) :=
  checkpoint_overwrite_iff_and_tie tieCfg (startState 0)

/-- Claim C3, witness: the invariant evaluated after one epoch of the
concrete run `tieCfg`. -/
theorem checkpoint_unique_and_best_witness :
    1 ≤ 1
  ∧ ("x" ≠ tieCfg.savePath ∧ (afterEpochs tieCfg 0 1).files "x" = none)
  ∧ (afterEpochs tieCfg 0 1).validLossMin = minLossUpTo tieCfg 0 1
  ∧ (∃ j, j < 1 ∧
      (afterEpochs tieCfg 0 1).files tieCfg.savePath
          = some ((afterEpochs tieCfg 0 (j + 1)).params)
        ∧ (epochLoss tieCfg 0 j : WithTop ℚ) = minLossUpTo tieCfg 0 1) :=
  ⟨by decide,
   ⟨by decide, (checkpoint_unique_and_best tieCfg 0 1 (by decide)).1 "x" (by decide)⟩,
   (checkpoint_unique_and_best tieCfg 0 1 (by decide)).2.1,
   (checkpoint_unique_and_best tieCfg 0 1 (by decide)).2.2⟩

/-- Claim C8, witness: a zero-epoch call on a concrete heap returns the
argument reference and leaves the other heap cell alone. -/
theorem train_returns_argument_model_witness :
    (trainModel tieCfg 0 0 (fun _ => (0 : ℚ))).2 = 0
  ∧ ((1 : Nat) ≠ 0
      ∧ (trainModel tieCfg 0 0 (fun _ => (0 : ℚ))).1 1 = (fun _ => (0 : ℚ)) 1) :=
  ⟨(train_returns_argument_model tieCfg 0 0 (fun _ => 0)).1,
   by decide,
   (train_returns_argument_model tieCfg 0 0 (fun _ => 0)).2 1 (by decide)⟩

/-- Claim C9, witness: the first-epoch save evaluated on the concrete run
`tieCfg` with one epoch. -/
theorem first_epoch_always_saves_witness :
    1 ≤ 1
  ∧ ((startState (0 : ℚ) : TrainState ℚ).validLossMin = ⊤
    ∧ (epochValidLoss tieCfg 0 : WithTop ℚ)
        ≤ (startState (0 : ℚ) : TrainState ℚ).validLossMin
    ∧ (afterEpochs tieCfg 0 1).writeLog
        = [(tieCfg.savePath, (afterEpochs tieCfg 0 1).params)]
    ∧ (afterEpochs tieCfg 0 1).writeLog.head?
        = some (tieCfg.savePath, (afterEpochs tieCfg 0 1).params)) :=
  ⟨by decide, first_epoch_always_saves tieCfg 0 1 (by decide)⟩

end DogBreed
